import Mathlib

/-!
Formal model of the `website-scrapper` crawler (`main.go`, the async/timeout
version of the program, which is the one the specification describes).

Go strings are modelled as lists of characters (`Str`); all byte-wise string
operations of the source (`strings.Split`, `strings.TrimSpace`,
`strings.HasPrefix`, `strings.HasSuffix`, string `<`) are modelled as
structural functions on `Str`, so every definition evaluates inside the
kernel.  HTML documents are modelled as the ordered list of elements that the
source's selectors can match; the third-party crawling engine (colly) and the
PDF sink (gofpdf) are external collaborators, modelled only through the exact
values the source passes to them.
-/

/-- Go strings, modelled as their character sequence (UTF-8 order-preserving). -/
abbrev Str := List Char

/-- A Go string literal. -/
def str (s : String) : Str := s.data

/-- Models `unicode.IsSpace` on the Latin-1 range (what `strings.TrimSpace`
strips): space, `\t`, `\n`, vertical tab, form feed, `\r`, NEL (U+0085) and
NBSP (U+00A0). -/
def isSpaceChar (c : Char) : Bool :=
  c == ' ' || c == '\t' || c == '\n' || c == '\x0b' || c == '\x0c' || c == '\r' ||
    c == '\u0085' || c == '\u00A0'

/-- Models Go `strings.TrimSpace`: drop leading and trailing whitespace. -/
def trimStr (s : Str) : Str :=
  ((s.dropWhile isSpaceChar).reverse.dropWhile isSpaceChar).reverse

/-- The decimal digit character for `d % 10`, as `fmt.Sprintf` with verb `d`
renders each digit. -/
def digitChar : Nat → Char
  | 0 => '0'
  | 1 => '1'
  | 2 => '2'
  | 3 => '3'
  | 4 => '4'
  | 5 => '5'
  | 6 => '6'
  | 7 => '7'
  | 8 => '8'
  | _ => '9'

/-- Fuel-driven decimal rendering loop; with fuel above `n` it renders the
decimal digits of `n` followed by `acc`. -/
def natReprAux : Nat → Nat → Str → Str
  | 0, _, acc => acc
  | fuel + 1, n, acc =>
    if n < 10 then digitChar n :: acc
    else natReprAux fuel (n / 10) (digitChar (n % 10) :: acc)

/-- Models `fmt.Sprintf` with verb `d` on a non-negative integer: its decimal
digit string. -/
def natRepr (n : Nat) : Str := natReprAux (n + 1) n []

/-- Value of a decimal digit string (the way `fmt.Sscanf` verb `d` accumulates
digits). -/
def digitsToNat (s : Str) : Nat := s.foldl (fun n c => n * 10 + (c.toNat - 48)) 0

/-- The element kinds the source's selectors distinguish. -/
inductive Tag
  | h1
  | h2
  | h3
  | p
  | pre
  | ul
  | ol
deriving DecidableEq

/-- One content-bearing element of the matched article container, in document
order: its tag, whether it sits inside a `.Header` region, its text content
(colly's `.Text`), and — for list elements — the texts of its `li` children. -/
structure Elem where
  tag : Tag
  inHeader : Bool := false
  text : Str := []
  items : List Str := []
deriving DecidableEq

/-- The goquery selector `".Header h1, h1"`: an `h1` below `.Header`, or any
`h1` (the union collapses to: any `h1`). -/
def selHeaderH1OrH1 (e : Elem) : Bool :=
  (e.inHeader && e.tag == Tag.h1) || e.tag == Tag.h1

/-- The goquery selector `".Header h2, h2"`: an `h2` below `.Header`, or any
`h2`. -/
def selHeaderH2OrH2 (e : Elem) : Bool :=
  (e.inHeader && e.tag == Tag.h2) || e.tag == Tag.h2

/-- colly's `ChildText(sel)`: the concatenated text of every matched element
in document order, trimmed (`strings.TrimSpace(h.DOM.Find(sel).Text())`). -/
def childText (doc : List Elem) (sel : Elem → Bool) : Str :=
  trimStr (((doc.filter sel).map Elem.text).flatten)

/-- Title resolution exactly as the source performs it:
`strings.TrimSpace(e.ChildText(".Header h1, h1"))`, falling back to
`strings.TrimSpace(e.ChildText(".Header h2, h2"))`, falling back to the
literal `"Untitled Article"`. -/
def resolveTitle (doc : List Elem) : Str :=
  let t1 := trimStr (childText doc selHeaderH1OrH1)
  let t2 := if t1 == [] then trimStr (childText doc selHeaderH2OrH2) else t1
  if t2 == [] then str "Untitled Article" else t2

/-- The bullet line the source writes for each `li`
(`content.WriteString("â€¢ " + li.Text + "\n")`). -/
def bulletItem (li : Str) : Str := str "â€¢ " ++ li ++ str "\n"

/-- One step of the content walk `e.ForEach("p, pre, h2, h3, ul, ol", ...)`:
the accumulator is the content builder so far and the code blocks collected so
far.  `h1` elements are not matched by the selector, so they leave the
accumulator unchanged. -/
def extractStep : Str × List Str → Elem → Str × List Str
  | (content, codeBlocks), e =>
    match e.tag with
    | Tag.h2 => (content ++ str "\n" ++ e.text ++ str "\n\n", codeBlocks)
    | Tag.h3 => (content ++ str "\n" ++ e.text ++ str "\n\n", codeBlocks)
    | Tag.p => (content ++ e.text ++ str "\n\n", codeBlocks)
    | Tag.pre =>
      let cbs := codeBlocks ++ [e.text]
      (content ++ str "[Code Block " ++ natRepr cbs.length ++ str "]\n\n", cbs)
    | Tag.ul => (content ++ (e.items.map bulletItem).flatten ++ str "\n", codeBlocks)
    | Tag.ol => (content ++ (e.items.map bulletItem).flatten ++ str "\n", codeBlocks)
    | Tag.h1 => (content, codeBlocks)

/-- The full content walk over the article's elements in document order,
starting from an empty builder and no code blocks. -/
def extractContent (doc : List Elem) : Str × List Str :=
  doc.foldl extractStep ([], [])

/-- `e.ForEach("h2, h3", ...)`: the texts of the `h2`/`h3` elements in
document order. -/
def extractHeadings (doc : List Elem) : List Str :=
  (doc.filter fun e => e.tag == Tag.h2 || e.tag == Tag.h3).map Elem.text

/-- The spec's `Segment` data model: the structured view of what each step of
the content walk emits. -/
inductive Segment
  | paragraph (text : Str)
  | heading (text : Str)
  | codeBlockRef (i : Nat)
  | listItems (items : List Str)
deriving DecidableEq

/-- The structured trace of the content walk: the same case split as
`extractStep`, recording the segment each element contributes and the running
code-block count (the 1-based index written into each placeholder). -/
def segStep : List Segment × Nat → Elem → List Segment × Nat
  | (segs, n), e =>
    match e.tag with
    | Tag.h2 => (segs ++ [Segment.heading e.text], n)
    | Tag.h3 => (segs ++ [Segment.heading e.text], n)
    | Tag.p => (segs ++ [Segment.paragraph e.text], n)
    | Tag.pre => (segs ++ [Segment.codeBlockRef (n + 1)], n + 1)
    | Tag.ul => (segs ++ [Segment.listItems e.items], n)
    | Tag.ol => (segs ++ [Segment.listItems e.items], n)
    | Tag.h1 => (segs, n)

/-- The spec-level `contentSegments` of a document. -/
def segmentsOf (doc : List Elem) : List Segment :=
  (doc.foldl segStep ([], 0)).1

/-- The source's `Page` record. -/
structure Page where
  Title : Str
  Content : Str
  URL : Str
  Headings : List Str
  Code : List Str
deriving DecidableEq

/-- The `Page` value the `OnHTML` callback appends for a document fetched from
`url`. -/
def mkPage (url : Str) (doc : List Elem) : Page :=
  { Title := resolveTitle doc
    Content := (extractContent doc).1
    URL := url
    Headings := extractHeadings doc
    Code := (extractContent doc).2 }

example : resolveTitle [⟨Tag.h2, true, str "A", []⟩, ⟨Tag.h1, false, str "B", []⟩] = str "B" := by decide

example : extractContent [⟨Tag.pre, false, str "x", []⟩] = (str "[Code Block 1]\n\n", [str "x"]) := by decide

example : segmentsOf [⟨Tag.p, false, str "a", []⟩, ⟨Tag.pre, false, str "x", []⟩] =
    [Segment.paragraph (str "a"), Segment.codeBlockRef 1] := by decide

/-- The shared crawl state the `OnHTML` callback mutates: the page store and
the visited-URL set (`pages`, `visitedURLs`). -/
structure CrawlState where
  pages : List Page
  visited : List Str
deriving DecidableEq

/-- One invocation of the `OnHTML` callback for a page fetched from `ev.1`
whose matched article container holds the elements `ev.2`: return early when
the URL is already visited, otherwise append the extracted record and then
mark the URL visited.  Callback invocations for the same URL are serialized by
the engine (all handlers of one response run in that response's goroutine), so
a run is a sequence of these steps. -/
def onHTMLStep (st : CrawlState) (ev : Str × List Elem) : CrawlState :=
  if st.visited.contains ev.1 then st
  else { pages := st.pages ++ [mkPage ev.1 ev.2], visited := st.visited ++ [ev.1] }

/-- A whole crawl, as the sequence of `OnHTML` callback invocations it
performs, starting from the empty store and empty visited set. -/
def runCallbacks (evs : List (Str × List Elem)) : CrawlState :=
  evs.foldl onHTMLStep { pages := [], visited := [] }

/-- The external crawl engine's request dedup (colly's internal visited
storage, an external collaborator): `c.Visit` enqueues a fetch only for a URL
it has not been asked to fetch before.  `requested` is the engine's
fetch log in order. -/
def collyVisitStep (requested : List Str) (u : Str) : List Str :=
  if requested.contains u then requested else requested ++ [u]

/-- The fetches the engine performs for a given sequence of discoveries of
URLs (every `c.Visit` call, in order). -/
def fetchSequence (discoveries : List Str) : List Str :=
  discoveries.foldl collyVisitStep []

/-- The link handler `e.ForEach("a[href]", ...)`, deciding whether a raw
`href` value is enqueued and as which absolute URL.  `hostnameOf` abstracts
the external `net/url` parser (`url.Parse` followed by `Hostname()`; `none`
models a parse error).  Returns the URL passed to `c.Visit`, or `none` when
the link is dropped. -/
def linkDecision (hostnameOf : Str → Option Str) (scheme domain : Str)
    (visited : List Str) (link : Str) : Option Str :=
  if (str "/").isPrefixOf link then
    let absoluteURL := scheme ++ str "://" ++ domain ++ link
    if !(visited.contains absoluteURL) then some absoluteURL else none
  else if (str "http").isPrefixOf link then
    match hostnameOf link with
    | some h => if h == domain && !(visited.contains link) then some link else none
    | none => none
  else none

/-- Formalisation of the claim's acceptance rule, word for word: a link is
enqueued iff it is a root-relative path (leading `/`, resolved against the
origin scheme and host) or a string with an explicit scheme
(`alpha (alnum|+|-|.)* :`) whose hostname exactly equals the origin hostname;
scheme-relative links (leading `//`) are among the forms it rejects. -/
def hasExplicitScheme (link : Str) : Bool :=
  match link with
  | [] => false
  | c :: rest =>
    c.isAlpha &&
      (rest.takeWhile (fun d => d.isAlpha || d.isDigit || d == '+' || d == '-' || d == '.')
        |> fun body => rest.drop body.length |> fun tail => tail.headD ' ' == ':')

/-- The claim's predicate for one link (`none` = rejected).  The claim states
scheme-relative links are rejected, so they are carved out of the
root-relative case here; the counterexample shows the code instead accepts
them through its leading-`/` branch. -/
def claimAccepts (hostnameOf : Str → Option Str) (scheme domain : Str)
    (visited : List Str) (link : Str) : Option Str :=
  if (str "//").isPrefixOf link then none
  else if (str "/").isPrefixOf link then
    let absoluteURL := scheme ++ str "://" ++ domain ++ link
    if !(visited.contains absoluteURL) then some absoluteURL else none
  else if hasExplicitScheme link then
    match hostnameOf link with
    | some h => if h == domain && !(visited.contains link) then some link else none
    | none => none
  else none

/-- The amended acceptance rule: leading `/` (scheme-relative `//` links
included) resolves against the origin scheme and host; otherwise the literal
prefix `http` (not an arbitrary explicit scheme) with a hostname equal to the
origin hostname; everything else is rejected; both accepted forms are dropped
when already visited. -/
def amendedAccepts (hostnameOf : Str → Option Str) (scheme domain : Str)
    (visited : List Str) (link : Str) : Option Str :=
  if (str "/").isPrefixOf link then
    let resolved := scheme ++ str "://" ++ domain ++ link
    if visited.contains resolved then none else some resolved
  else if (str "http").isPrefixOf link then
    match hostnameOf link with
    | none => none
    | some h => if h == domain then (if visited.contains link then none else some link) else none
  else none

/-- What the PDF sink receives for one content paragraph: a monospace code
region (Courier, grey fill) or a body-text region (Arial). -/
inductive RenderedItem
  | codeBlock (text : Str)
  | paragraph (text : Str)
deriving DecidableEq

/-- Models `fmt.Sscanf(para, "[Code Block %d]", &blockNum)` on a paragraph that
begins with `"[Code Block "`: the format's space and the `d` verb first skip
further whitespace, the verb accepts an optional sign and then a digit run,
and `blockNum` keeps its zero value when the verb matches no digits.  A
negative parse is modelled as `0`: the only consumer is the `blockNum > 0`
guard, which every non-positive value fails identically. -/
def parseBlockNum (para : Str) : Nat :=
  let rest := (para.drop (str "[Code Block ").length).dropWhile isSpaceChar
  if rest.headD ' ' == '-' then 0
  else
    let body := if rest.headD ' ' == '+' then rest.tail else rest
    let digits := body.takeWhile Char.isDigit
    if digits == [] then 0 else digitsToNat digits

/-- The body of the paragraph-rendering loop for one paragraph: skip when it
trims to empty; when it starts with `"[Code Block "`, emit the referenced code
block only when the parsed number is in `1..len(code)` and emit nothing
otherwise; every other paragraph is emitted as body text. -/
def renderPara (code : List Str) (para : Str) : Option RenderedItem :=
  if trimStr para == [] then none
  else if (str "[Code Block ").isPrefixOf para then
    let blockNum := parseBlockNum para
    if 0 < blockNum ∧ blockNum ≤ code.length then
      some (RenderedItem.codeBlock (code.getD (blockNum - 1) []))
    else none
  else some (RenderedItem.paragraph para)

/-- The comparator of `sort.Slice(pages, ...)`: Go's byte-wise `<` on the URL
strings, which on UTF-8 text coincides with the lexicographic order on the
character lists. -/
def pageLess (a b : Page) : Prop := a.URL < b.URL

/-- The non-strict order a comparison sort with comparator `pageLess`
establishes between adjacent elements. -/
def pageLe (a b : Page) : Prop := a.URL ≤ b.URL

instance : DecidableRel pageLe :=
  fun a b => inferInstanceAs (Decidable (a.URL ≤ b.URL))

instance : IsTotal Page pageLe :=
  ⟨fun a b => le_total a.URL b.URL⟩

instance : IsTrans Page pageLe :=
  ⟨fun _ _ _ h₁ h₂ => le_trans h₁ h₂⟩

instance : IsAntisymm Page pageLess :=
  ⟨fun _ _ h₁ h₂ => absurd h₂ (lt_asymm h₁)⟩

/-- Models `sort.Slice(pages, func(i, j) { return pages[i].URL < pages[j].URL })`:
an (unstable) comparison sort, whose output is characterised by being a
permutation of the input sorted by the comparator — here realised by
insertion sort. -/
def sortPages (l : List Page) : List Page := List.insertionSort pageLe l

/-- Models `strings.HasSuffix`. -/
def hasSuffixStr (s suf : Str) : Bool := suf.isSuffixOf s

/-- The output-path normalization: append `".pdf"` exactly when the flag value
does not already end in it. -/
def normalizeOutputPath (p : Str) : Str :=
  if hasSuffixStr p (str ".pdf") then p else p ++ str ".pdf"

/-- Models `path/filepath.Dir` for clean slash-separated paths (external
stdlib): the path up to the last `/` with trailing slashes removed, `"."` when
there is no slash, `"/"` for root-anchored single components. -/
def filepathDir (p : Str) : Str :=
  let pref := (p.reverse.dropWhile (fun c => c ≠ '/')).reverse
  let d := (pref.reverse.dropWhile (fun c => c == '/')).reverse
  if d == [] then (if pref == [] then str "." else str "/") else d

/-- The filesystem calls of the save step, in order. -/
inductive FsOp
  | mkdirAll (dir : Str)
  | writeFile (path : Str)
deriving DecidableEq

/-- The save step: normalize the `-output` value, create the parent directory
of the final path (`os.MkdirAll(filepath.Dir(...))`, which creates it when
missing and is a no-op otherwise), then write the artifact there. -/
def saveArtifactOps (outputFile : Str) : List FsOp :=
  let final := normalizeOutputPath outputFile
  [FsOp.mkdirAll (filepathDir final), FsOp.writeFile final]

/-- Process-level outcome of a step: abort fatally (non-zero exit) or
proceed. -/
inductive ExitBehavior
  | fatalExit (msg : Str)
  | proceed
deriving DecidableEq

/-- The handling of `c.Visit(baseURL)`'s return value: on error, log, and
abort fatally only when zero pages were collected. -/
def originVisitCheck (visitError : Option Str) (pagesCount : Nat) : ExitBehavior :=
  match visitError with
  | some _ =>
    if pagesCount == 0 then ExitBehavior.fatalExit (str "No pages were scraped. Exiting.")
    else ExitBehavior.proceed
  | none => ExitBehavior.proceed

/-- The `OnError` handler for a failed fetch of `u`: it prints one line and
touches nothing else — the crawl state is returned unchanged (the URL is
abandoned, never re-enqueued) and no exit is triggered. -/
def onErrorHandler (st : CrawlState) (u errMsg : Str) : CrawlState × List Str × ExitBehavior :=
  (st, [str "Error scraping " ++ u ++ str ": " ++ errMsg], ExitBehavior.proceed)

/-- The tail of `main` after the crawl, for a run whose `c.Visit(baseURL)`
call returned `visitErr` and whose store holds `pages`: the origin check runs,
and on `proceed` the pages are sorted and rendered (the artifact holds the
sorted pages; absent a write failure the process then exits zero).  On
`fatalExit` nothing is rendered. -/
def mainOutcome (visitErr : Option Str) (pages : List Page) : ExitBehavior × List Page :=
  match originVisitCheck visitErr pages.length with
  | ExitBehavior.fatalExit m => (ExitBehavior.fatalExit m, [])
  | ExitBehavior.proceed => (ExitBehavior.proceed, sortPages pages)

/-- Operations a goroutine can attempt on the unbuffered channel `done`. -/
inductive ChanOp
  | send
  | recv
deriving DecidableEq

/-- The watchdog goroutine's remaining channel operations once the deadline
has fired: it prints the timeout message and then executes `done <- true`. -/
def watchdogOpsAfterTimeout : List ChanOp := [ChanOp.send]

/-- The main goroutine's remaining channel operations once `c.Wait()` has
returned: it executes `done <- true` before sorting and rendering. -/
def mainOpsAfterWait : List ChanOp := [ChanOp.send]

/-- Rendezvous semantics of an unbuffered Go channel between two goroutines: a
step happens only when one side's next operation is a send and the other's is
a receive. -/
def rendezvousStep : List ChanOp → List ChanOp → Bool
  | ChanOp.send :: _, ChanOp.recv :: _ => true
  | ChanOp.recv :: _, ChanOp.send :: _ => true
  | _, _ => false

/-- Both goroutines still have a pending operation and no rendezvous is
possible: each is blocked forever. -/
def bothBlocked (a b : List ChanOp) : Bool :=
  !a.isEmpty && !b.isEmpty && !rendezvousStep a b

/-! ### Helper lemmas -/

theorem contains_eq_true_of_mem {α : Type} [BEq α] [LawfulBEq α] {l : List α} {u : α}
    (h : u ∈ l) : l.contains u = true := by
  simpa [List.contains, List.elem_iff] using h

theorem not_mem_of_contains_eq_false {α : Type} [BEq α] [LawfulBEq α] {l : List α} {u : α}
    (h : l.contains u = false) : u ∉ l := by
  intro hmem
  rw [contains_eq_true_of_mem hmem] at h
  cases h

/-- Formalisation of the claim's title-resolution order, word for word:
heading inside the header region first (`.Header h1`), then `.Header h2`,
then any `h1`, then any `h2`, then the sentinel `"Untitled"`. -/
def claimTitle (doc : List Elem) : Str :=
  let c1 := childText doc fun e => e.inHeader && e.tag == Tag.h1
  let c2 := childText doc fun e => e.inHeader && e.tag == Tag.h2
  let c3 := childText doc fun e => e.tag == Tag.h1
  let c4 := childText doc fun e => e.tag == Tag.h2
  if c1 ≠ [] then c1
  else if c2 ≠ [] then c2
  else if c3 ≠ [] then c3
  else if c4 ≠ [] then c4
  else str "Untitled"

/-- The amended title rule: the two selector unions each collapse to "any
`h1`" / "any `h2`", and the sentinel is `"Untitled Article"`. -/
def amendedTitle (doc : List Elem) : Str :=
  let t1 := trimStr (childText doc fun e => e.tag == Tag.h1)
  let t2 := trimStr (childText doc fun e => e.tag == Tag.h2)
  if t1 ≠ [] then t1
  else if t2 ≠ [] then t2
  else str "Untitled Article"

theorem selHeaderH1OrH1_eq (e : Elem) : selHeaderH1OrH1 e = (e.tag == Tag.h1) := by
  unfold selHeaderH1OrH1
  cases h : (e.tag == Tag.h1) <;> simp [h]

theorem selHeaderH2OrH2_eq (e : Elem) : selHeaderH2OrH2 e = (e.tag == Tag.h2) := by
  unfold selHeaderH2OrH2
  cases h : (e.tag == Tag.h2) <;> simp [h]

/-- C6 (counterexample): a document whose header region holds an `h2` `"A"`
and whose body holds a top-level `h1` `"B"`.  The claimed resolution order
picks the header's `"A"`; the code's selector `".Header h1, h1"` matches any
`h1` and picks `"B"`.  At the empty document the code's sentinel is
`"Untitled Article"`, not the claimed `"Untitled"`. -/
theorem title_order_counterexample :
    resolveTitle [⟨Tag.h2, true, str "A", []⟩, ⟨Tag.h1, false, str "B", []⟩] = str "B" ∧
    claimTitle [⟨Tag.h2, true, str "A", []⟩, ⟨Tag.h1, false, str "B", []⟩] = str "A" ∧
    str "B" ≠ str "A" ∧
    resolveTitle [] = str "Untitled Article" ∧
    claimTitle [] = str "Untitled" ∧
    str "Untitled Article" ≠ str "Untitled" := by
  refine ⟨by decide, by decide, by decide, by decide, by decide, by decide⟩

/-- C6 (amended): the title equals the trimmed concatenated text of all `h1`
descendants, falling back to all `h2` descendants, falling back to the
sentinel `"Untitled Article"` — and it is always non-empty. -/
theorem resolveTitle_amended (doc : List Elem) :
    resolveTitle doc = amendedTitle doc ∧ resolveTitle doc ≠ [] := by
  have hsel1 : childText doc selHeaderH1OrH1 = childText doc fun e => e.tag == Tag.h1 := by
    unfold childText
    rw [List.filter_congr fun e _ => selHeaderH1OrH1_eq e]
  have hsel2 : childText doc selHeaderH2OrH2 = childText doc fun e => e.tag == Tag.h2 := by
    unfold childText
    rw [List.filter_congr fun e _ => selHeaderH2OrH2_eq e]
  unfold resolveTitle amendedTitle
  rw [hsel1, hsel2]
  constructor
  · by_cases h1 : trimStr (childText doc fun e => e.tag == Tag.h1) = [] <;>
      by_cases h2 : trimStr (childText doc fun e => e.tag == Tag.h2) = [] <;>
      simp [h1, h2]
  · by_cases h1 : trimStr (childText doc fun e => e.tag == Tag.h1) = [] <;>
      by_cases h2 : trimStr (childText doc fun e => e.tag == Tag.h2) = [] <;>
      simp [h1, h2] <;> decide

/-- The texts of the `Heading`-tagged segments, in order. -/
def headingTexts (segs : List Segment) : List Str :=
  segs.filterMap fun s =>
    match s with
    | Segment.heading t => some t
    | _ => none

theorem headingTexts_append (a b : List Segment) :
    headingTexts (a ++ b) = headingTexts a ++ headingTexts b := by
  unfold headingTexts
  exact List.filterMap_append a b _

theorem headingTexts_segStep_fold (doc : List Elem) :
    ∀ segs n, headingTexts (doc.foldl segStep (segs, n)).1
      = headingTexts segs ++ extractHeadings doc := by
  induction doc with
  | nil => intro segs n; simp [extractHeadings]
  | cons e doc ih =>
    intro segs n
    have hh : extractHeadings (e :: doc)
        = (if (e.tag == Tag.h2 || e.tag == Tag.h3) = true then [e.text] else [])
          ++ extractHeadings doc := by
      unfold extractHeadings
      rw [List.filter_cons]
      by_cases h : (e.tag == Tag.h2 || e.tag == Tag.h3) = true <;> simp [h]
    cases htag : e.tag <;>
      simp only [List.foldl_cons, segStep, htag, hh, ih, headingTexts_append] <;>
      simp [headingTexts, htag]

/-- C9: for every extracted page, the headings list equals (hence is a
subsequence of, in the same relative order) the texts of the
`Heading`-tagged content segments: both are produced by walking the same
`h2`/`h3` elements in document order. -/
theorem headings_sublist_headingSegments (doc : List Elem) :
    extractHeadings doc = headingTexts (segmentsOf doc) ∧
    (extractHeadings doc).Sublist (headingTexts (segmentsOf doc)) := by
  have h : headingTexts (segmentsOf doc) = extractHeadings doc := by
    unfold segmentsOf
    simpa [headingTexts] using headingTexts_segStep_fold doc [] 0
  exact ⟨h.symm, h.symm ▸ List.Sublist.refl _⟩

/-- The error-handling paths as written: a non-nil return of `c.Visit(baseURL)`
with zero collected pages is fatal, any other combination proceeds, and the
per-URL `OnError` handler leaves the crawl state unchanged (the URL is
abandoned, not retried), emits exactly one log line, and never triggers an
exit.  Note that under `colly.Async(true)` the non-nil return covers only
pre-flight rejections, not network failures. -/
theorem error_handling_policy :
    (∀ e n, originVisitCheck (some e) n
        = ExitBehavior.fatalExit (str "No pages were scraped. Exiting.") ↔ n = 0) ∧
    (∀ n, originVisitCheck none n = ExitBehavior.proceed) ∧
    (∀ st u m, (onErrorHandler st u m).1 = st ∧
      (onErrorHandler st u m).2.2 = ExitBehavior.proceed ∧
      (onErrorHandler st u m).2.1.length = 1) := by
  refine ⟨fun e n => ?_, fun n => rfl, fun st u m => ⟨rfl, rfl, rfl⟩⟩
  unfold originVisitCheck
  by_cases h : n = 0 <;> simp [h]

/-- C7: evaluation at the failing input.  Under `colly.Async(true)` a
network-level failure of the origin fetch (DNS, connection refused, HTTP
error status) is delivered to the `OnError` callback while `c.Visit(baseURL)`
itself returns nil.  The handler only logs and proceeds; the post-crawl check
then sees a nil visit error, so the `log.Fatal("No pages were scraped")`
branch — the code's own intended zero-pages abort — is unreachable on this
path, and main proceeds to sort and render zero pages and exit zero, not the
fatal non-zero exit the claim requires. -/
theorem origin_async_failure_exits_zero :
    (onErrorHandler { pages := [], visited := [] } (str "https://example.com/docs")
        (str "connection refused")).1 = { pages := [], visited := [] } ∧
    (onErrorHandler { pages := [], visited := [] } (str "https://example.com/docs")
        (str "connection refused")).2.2 = ExitBehavior.proceed ∧
    mainOutcome none [] = (ExitBehavior.proceed, []) := by
  exact ⟨rfl, rfl, rfl⟩

/-- C5: the collected-pages channel protocol after a timeout.  Once the
deadline has fired, the watchdog goroutine's only remaining operation is a
send on the unbuffered `done` channel, and the main goroutine's next operation
after `c.Wait()` returns is also a send on `done`; no goroutine ever receives,
so no rendezvous is possible and both goroutines block forever — the program
never reaches sorting, rendering, or a zero exit. -/
theorem timeout_done_channel_deadlock :
    bothBlocked watchdogOpsAfterTimeout mainOpsAfterWait = true := by decide

theorem hasSuffixStr_append_self (p s : Str) : hasSuffixStr (p ++ s) s = true := by
  simp [hasSuffixStr, List.isSuffixOf]

/-- C8: the final artifact path always ends in `".pdf"`; the suffix is
appended exactly when absent (so `-output report` yields `report.pdf` and a
value already ending in `".pdf"` is unchanged), and the save step first
creates the parent directory of the final path (`os.MkdirAll` on
`filepath.Dir` of it, which creates it when missing) before writing there. -/
theorem outputPath_normalization :
    (∀ p, hasSuffixStr (normalizeOutputPath p) (str ".pdf") = true) ∧
    (∀ p, hasSuffixStr p (str ".pdf") = true → normalizeOutputPath p = p) ∧
    (∀ p, hasSuffixStr p (str ".pdf") = false → normalizeOutputPath p = p ++ str ".pdf") ∧
    (∀ p, saveArtifactOps p
      = [FsOp.mkdirAll (filepathDir (normalizeOutputPath p)),
         FsOp.writeFile (normalizeOutputPath p)]) ∧
    normalizeOutputPath (str "report") = str "report.pdf" := by
  refine ⟨fun p => ?_, fun p h => ?_, fun p h => ?_, fun p => rfl, by decide⟩
  · unfold normalizeOutputPath
    by_cases h : hasSuffixStr p (str ".pdf") = true
    · simp [h]
    · simp only [h, if_false, Bool.false_eq_true]
      exact hasSuffixStr_append_self p (str ".pdf")
  · simp [normalizeOutputPath, h]
  · simp [normalizeOutputPath, h]

/-- C8 (witness): the normalization at the flag values `"report"` and
`"doc.pdf"`. -/
theorem outputPath_normalization_witness :
    hasSuffixStr (normalizeOutputPath (str "report")) (str ".pdf") = true ∧
    normalizeOutputPath (str "doc.pdf") = str "doc.pdf" ∧
    normalizeOutputPath (str "report") = str "report" ++ str ".pdf" :=
  ⟨outputPath_normalization.1 (str "report"),
   outputPath_normalization.2.1 (str "doc.pdf") (by decide),
   outputPath_normalization.2.2.1 (str "report") (by decide)⟩

/-- C10: a paragraph that does not trim to empty, begins with
`"[Code Block "`, and whose parsed block number is outside `1..len(code)`
(including the parse-failure value `0`) renders as nothing at all — neither a
code block nor body text (and, the guard having failed, `code` is never
indexed). -/
theorem invalid_codeBlockRef_skipped (code : List Str) (para : Str)
    (hne : trimStr para ≠ [])
    (hpre : (str "[Code Block ").isPrefixOf para = true)
    (hinv : ¬(0 < parseBlockNum para ∧ parseBlockNum para ≤ code.length)) :
    renderPara code para = none := by
  unfold renderPara
  rw [if_neg (by simpa using hne), if_pos hpre, if_neg hinv]

/-- C10 (witness): `"[Code Block 2]"` against a single-element code list is
dropped, as is `"[Code Block x]"` (no parsable number). -/
theorem invalid_codeBlockRef_skipped_witness :
    renderPara [str "fn main()"] (str "[Code Block 2]") = none ∧
    renderPara [str "fn main()"] (str "[Code Block x]") = none :=
  ⟨invalid_codeBlockRef_skipped _ _ (by decide) (by decide) (by decide),
   invalid_codeBlockRef_skipped _ _ (by decide) (by decide) (by decide)⟩

/-- Invariant of the `OnHTML` callback state: page URLs are pairwise distinct
and every stored page's URL has been marked visited. -/
def goodState (st : CrawlState) : Prop :=
  st.pages.Pairwise (fun a b => a.URL ≠ b.URL) ∧ ∀ p ∈ st.pages, p.URL ∈ st.visited

theorem onHTMLStep_preserves_goodState (st : CrawlState) (ev : Str × List Elem)
    (h : goodState st) : goodState (onHTMLStep st ev) := by
  unfold onHTMLStep
  by_cases hv : st.visited.contains ev.1 = true
  · rw [if_pos hv]
    exact h
  · have hnotmem : ev.1 ∉ st.visited :=
      not_mem_of_contains_eq_false (by simpa using hv)
    rw [if_neg hv]
    constructor
    · rw [List.pairwise_append]
      refine ⟨h.1, List.pairwise_singleton _ _, ?_⟩
      intro a ha b hb
      have hb' : b = mkPage ev.1 ev.2 := by simpa using hb
      subst hb'
      intro heq
      have hae : a.URL = ev.1 := heq
      exact hnotmem (hae ▸ h.2 a ha)
    · intro p hp
      rcases List.mem_append.mp hp with hp | hp
      · exact List.mem_append.mpr (Or.inl (h.2 p hp))
      · have hp' : p = mkPage ev.1 ev.2 := by simpa using hp
        subst hp'
        exact List.mem_append.mpr (Or.inr (by simp [mkPage]))

theorem runCallbacks_goodState (evs : List (Str × List Elem)) :
    goodState (runCallbacks evs) := by
  unfold runCallbacks
  have h : ∀ st, goodState st → goodState (evs.foldl onHTMLStep st) := by
    induction evs with
    | nil => intro st h; simpa using h
    | cons e evs ih =>
      intro st h
      exact ih _ (onHTMLStep_preserves_goodState st e h)
  exact h _ ⟨List.Pairwise.nil, by intro p hp; cases hp⟩

theorem fetchSequence_fold_spec (us : List Str) :
    ∀ acc, acc.Nodup →
      (us.foldl collyVisitStep acc).Nodup ∧
      ∀ u, u ∈ us.foldl collyVisitStep acc ↔ u ∈ acc ∨ u ∈ us := by
  induction us with
  | nil => intro acc h; simpa using h
  | cons v us ih =>
    intro acc hacc
    have hstep : (collyVisitStep acc v).Nodup ∧ ∀ u, u ∈ collyVisitStep acc v ↔ u ∈ acc ∨ u = v := by
      unfold collyVisitStep
      by_cases hv : acc.contains v = true
      · have hm : v ∈ acc := by simpa [List.contains, List.elem_iff] using hv
        simp only [hv, if_true]
        refine ⟨hacc, fun u => ⟨Or.inl, ?_⟩⟩
        rintro (h | rfl)
        · exact h
        · exact hm
      · have hm : v ∉ acc := not_mem_of_contains_eq_false (by simpa using hv)
        simp only [hv, if_false, Bool.false_eq_true]
        refine ⟨?_, fun u => ?_⟩
        · rw [List.nodup_append]
          exact ⟨hacc, List.nodup_singleton v, by
            intro a ha hb
            have : a = v := by simpa using hb
            exact hm (this ▸ ha)⟩
        · simp [List.mem_append]
    obtain ⟨ih1, ih2⟩ := ih (collyVisitStep acc v) hstep.1
    refine ⟨ih1, fun u => ?_⟩
    rw [List.foldl_cons, ih2 u, hstep.2 u]
    constructor
    · rintro ((h | rfl) | h)
      · exact Or.inl h
      · exact Or.inr (List.mem_cons_self _ _)
      · exact Or.inr (List.mem_cons_of_mem _ h)
    · rintro (h | h)
      · exact Or.inl (Or.inl h)
      · rcases List.mem_cons.mp h with rfl | h
        · exact Or.inl (Or.inr rfl)
        · exact Or.inr h

theorem count_eq_one_of_nodup_of_mem {l : List Str} {u : Str}
    (hnd : l.Nodup) (h : u ∈ l) : l.count u = 1 := by
  induction l with
  | nil => cases h
  | cons a l ih =>
    rcases List.mem_cons.mp h with rfl | hmem
    · have hnotm : u ∉ l := (List.nodup_cons.mp hnd).1
      rw [List.count_cons_self, List.count_eq_zero.mpr hnotm]
    · have hne : u ≠ a := by
        rintro rfl
        exact (List.nodup_cons.mp hnd).1 hmem
      rw [List.count_cons_of_ne hne, ih (List.nodup_cons.mp hnd).2 hmem]

/-- C1: (i) after any sequence of `OnHTML` callback invocations the final page
store holds at most one record per URL (its URL list is duplicate-free);
(ii) when a page's URL is already in the visited set the callback returns the
state unchanged, appending nothing; (iii) the crawl engine's request dedup
performs exactly one fetch for a URL however many times it is discovered. -/
theorem crawl_dedup :
    (∀ evs : List (Str × List Elem), ((runCallbacks evs).pages.map Page.URL).Nodup) ∧
    (∀ (st : CrawlState) (ev : Str × List Elem), ev.1 ∈ st.visited → onHTMLStep st ev = st) ∧
    (∀ (us : List Str) (u : Str), u ∈ us → (fetchSequence us).count u = 1) := by
  refine ⟨fun evs => ?_, fun st ev h => ?_, fun us u h => ?_⟩
  · exact List.pairwise_map.mpr ((runCallbacks_goodState evs).1)
  · unfold onHTMLStep
    rw [if_pos (contains_eq_true_of_mem h)]
  · obtain ⟨hnd, hmem⟩ := fetchSequence_fold_spec us [] List.Pairwise.nil
    exact count_eq_one_of_nodup_of_mem hnd ((hmem u).mpr (Or.inr h))

/-- C1 (witness): a URL discovered twice is fetched once; a second callback
for an already-visited URL appends nothing; the duplicated callback sequence
still yields distinct stored URLs. -/
theorem crawl_dedup_witness :
    ((runCallbacks [(str "u", []), (str "u", [])]).pages.map Page.URL).Nodup ∧
    onHTMLStep { pages := [], visited := [str "u"] } (str "u", [])
      = { pages := [], visited := [str "u"] } ∧
    (fetchSequence [str "a", str "b", str "a"]).count (str "a") = 1 :=
  ⟨crawl_dedup.1 [(str "u", []), (str "u", [])],
   crawl_dedup.2.1 { pages := [], visited := [str "u"] } (str "u", []) (by decide),
   crawl_dedup.2.2 [str "a", str "b", str "a"] (str "a") (by decide)⟩

/-- C2: sorting the collected pages is deterministic in the final record set:
for any two arrival orders (permutations) of records with pairwise-distinct
URLs, `sort.Slice` by byte-wise URL comparison produces the identical
ordering, which is sorted ascending by URL and a permutation of the
collection. -/
theorem sortPages_deterministic (l₁ l₂ : List Page) (hperm : l₁.Perm l₂)
    (hnd : l₁.Pairwise fun a b => a.URL ≠ b.URL) :
    sortPages l₁ = sortPages l₂ ∧
    (sortPages l₁).Sorted pageLe ∧ (sortPages l₁).Perm l₁ := by
  have hs₁ : (sortPages l₁).Sorted pageLe := List.sorted_insertionSort pageLe l₁
  have hs₂ : (sortPages l₂).Sorted pageLe := List.sorted_insertionSort pageLe l₂
  have hp₁ : (sortPages l₁).Perm l₁ := List.perm_insertionSort pageLe l₁
  have hp₂ : (sortPages l₂).Perm l₂ := List.perm_insertionSort pageLe l₂
  have hsym : ∀ {x y : Page}, x.URL ≠ y.URL → y.URL ≠ x.URL := fun h => Ne.symm h
  have hnd₁ : (sortPages l₁).Pairwise fun a b => a.URL ≠ b.URL :=
    (hp₁.pairwise_iff hsym).mpr hnd
  have hnd₂ : (sortPages l₂).Pairwise fun a b => a.URL ≠ b.URL :=
    ((hp₂.trans hperm.symm).pairwise_iff hsym).mpr hnd
  have hstrict₁ : (sortPages l₁).Sorted pageLess :=
    List.Pairwise.imp (fun hab => lt_of_le_of_ne hab.1 hab.2) (List.Pairwise.and hs₁ hnd₁)
  have hstrict₂ : (sortPages l₂).Sorted pageLess :=
    List.Pairwise.imp (fun hab => lt_of_le_of_ne hab.1 hab.2) (List.Pairwise.and hs₂ hnd₂)
  exact ⟨List.eq_of_perm_of_sorted (hp₁.trans (hperm.trans hp₂.symm)) hstrict₁ hstrict₂,
    hs₁, hp₁⟩

/-- A concrete stored page with URL `"a"`, for the sorting witness. -/
def pageA : Page :=
  { Title := str "A", Content := [], URL := str "a", Headings := [], Code := [] }

/-- A concrete stored page with URL `"b"`, for the sorting witness. -/
def pageB : Page :=
  { Title := str "B", Content := [], URL := str "b", Headings := [], Code := [] }

/-- C2 (witness): the two arrival orders of two distinct-URL pages sort to the
same list. -/
theorem sortPages_deterministic_witness :
    sortPages [pageB, pageA] = sortPages [pageA, pageB] ∧
    (sortPages [pageB, pageA]).Sorted pageLe ∧
    (sortPages [pageB, pageA]).Perm [pageB, pageA] :=
  sortPages_deterministic [pageB, pageA] [pageA, pageB] (by decide) (by decide)

/-- C4 (counterexample): the scheme-relative link `"//other.com/x"` — which
the claim lists among the rejected forms — begins with `/`, so the code's
first branch accepts it and enqueues it mangled onto the origin scheme and
host, while the claim's rule rejects it. -/
theorem schemeRelative_link_counterexample :
    linkDecision (fun _ => none) (str "https") (str "example.com") [] (str "//other.com/x")
      = some (str "https://example.com//other.com/x") ∧
    claimAccepts (fun _ => none) (str "https") (str "example.com") [] (str "//other.com/x")
      = none := by
  exact ⟨by decide, by decide⟩

/-- C4 (amended): a link is enqueued iff it begins with `/` (scheme-relative
`//` links included, resolved against the origin scheme and host as if
root-relative) and the resolved URL is unvisited, or it begins with the
literal prefix `http` (not an arbitrary explicit scheme), parses with a
hostname exactly equal to the origin hostname, and is unvisited; all other
forms — `mailto:`, `javascript:`, fragment-only, and URLs of schemes not
beginning in `http` such as `ftp:` — are rejected, whatever the parser
says. -/
theorem linkDecision_amended (hostnameOf : Str → Option Str) (scheme domain : Str)
    (visited : List Str) (link : Str) :
    linkDecision hostnameOf scheme domain visited link
      = amendedAccepts hostnameOf scheme domain visited link ∧
    linkDecision hostnameOf scheme domain visited (str "mailto:user@example.com") = none ∧
    linkDecision hostnameOf scheme domain visited (str "javascript:void(0)") = none ∧
    linkDecision hostnameOf scheme domain visited (str "#section") = none ∧
    linkDecision hostnameOf scheme domain visited (str "ftp://example.com/x") = none := by
  refine ⟨?_, ?_, ?_, ?_, ?_⟩
  · unfold linkDecision amendedAccepts
    by_cases h1 : (str "/").isPrefixOf link = true
    · rw [if_pos h1, if_pos h1]
      by_cases h2 : visited.contains (scheme ++ str "://" ++ domain ++ link) = true <;>
        simp [h2]
    · rw [if_neg h1, if_neg h1]
      by_cases h3 : (str "http").isPrefixOf link = true
      · rw [if_pos h3, if_pos h3]
        cases hh : hostnameOf link with
        | none => rfl
        | some h =>
          by_cases h4 : (h == domain) = true <;>
            by_cases h5 : visited.contains link = true <;> simp [h4, h5]
      · rw [if_neg h3, if_neg h3]
  · unfold linkDecision
    rw [if_neg (by decide), if_neg (by decide)]
  · unfold linkDecision
    rw [if_neg (by decide), if_neg (by decide)]
  · unfold linkDecision
    rw [if_neg (by decide), if_neg (by decide)]
  · unfold linkDecision
    rw [if_neg (by decide), if_neg (by decide)]

